import Mathlib

/-!
Verification of the image-fidelity comparison engine of the RC_metric
repository (a Blender add-on computing PSNR/SSIM between rendered images
and reference photographs).

The embedding below models, from the source:
* `src/operators/render_operators.py`, class `RCMETRICS_OT_Compare`:
  the three comparison modes (`calculate_metrics_standard`,
  `calculate_metrics_no_transparent`, `calculate_metrics_edges_only`),
  the normalization step of `execute`, and `create_diff_image`;
* `src/utils/image_utils.py`, `calculate_image_metrics` (batch path);
* `src/utils/render_utils.py`, `update_metrics_summary`, together with the
  initial summary built in `RCMETRICS_OT_CalculateMetrics.invoke`
  (`src/operators/metrics_operators.py`).

Numeric conventions of the embedding:
* 8-bit pixel values are carried as `ℤ`; `validBytes` states the 0..255
  range.  numpy `uint8` wraparound (where the source performs arithmetic
  on un-promoted `uint8` arrays) is modelled explicitly with `% 256`.
* Exact mean-square computations are done in `ℚ`.
* PSNR results are values of the inductive `PsnrV`: `PsnrV.inf` models the
  IEEE infinity produced by `10*log10(x/0)` / `float('inf')`, and
  `PsnrV.val x` a finite float.
* `structural_similarity` of scikit-image is an external library; it is
  modelled by `mssim`, the standard windowed SSIM formula with
  `data_range=255`, parametric in the filter window `w`, the crop region
  `crop` and the covariance normalization `covn` (1 for
  `use_sample_covariance=False`, NP/(NP-1) for the library default), since
  the exact Gaussian/uniform window coefficients are library internals.
* `cv2.resize` is an external library routine; it is modelled by `resize`,
  which fixes the output dimensions and records the requested
  interpolation kernel, with the pixel content supplied by an arbitrary
  kernel function `k` over which the theorems quantify.
-/

namespace RCMetric

/-- An 8-bit raster image: height, width, channel count (3 = RGB or BGR,
4 = RGBA/BGRA, channel index 3 is alpha), and the per-channel byte value
at each pixel, carried as an integer. -/
structure Img where
  H : ℕ
  W : ℕ
  C : ℕ
  px : ℕ → ℕ → ℕ → ℤ

/-- The pixel grid of an `H × W` image, as a finite set of (row, column)
index pairs. -/
def pixGrid (H W : ℕ) : Finset (ℕ × ℕ) := Finset.range H ×ˢ Finset.range W

/-- The pixel index set of an image. -/
def Img.pixels (A : Img) : Finset (ℕ × ℕ) := pixGrid A.H A.W

/-- All stored channel values are genuine bytes (0..255). -/
def validBytes (A : Img) : Prop := ∀ i j c, 0 ≤ A.px i j c ∧ A.px i j c ≤ 255

/-- numpy `uint8` subtraction: wraps modulo 256
(`image1_rgb[alpha_mask] - image2_rgb[alpha_mask]` on `uint8` arrays). -/
def u8sub (a b : ℤ) : ℤ := (a - b) % 256

/-- numpy `uint8` squaring: `x ** 2` on a `uint8` array wraps modulo 256. -/
def u8sq (a : ℤ) : ℤ := (a * a) % 256

/-- Result of a PSNR computation.

* `inf` — the IEEE infinity produced by `10*np.log10(x/0)` (skimage on a
  zero MSE) or by an explicit `float('inf')`;
* `sentinel x` — an explicitly returned rational constant (`0` for a
  degenerate mask, `100` for the edge-only perfect-match sentinel);
* `ofMse m` — the finite value `10*log10(255²/m) = 20*log10(255/√m)` dB
  for a positive mean-squared error `m`, kept symbolically (indexed by the
  exact rational MSE) so the model stays computable.

`10*log10(255²/·)` is injective, so two `ofMse` values denote the same
float exactly when their arguments agree, and `inf` differs from every
`sentinel`/`ofMse` value.  A `sentinel x` may numerically coincide with an
`ofMse m`; no theorem below distinguishes those two constructors. -/
inductive PsnrV where
  | inf : PsnrV
  | sentinel : ℚ → PsnrV
  | ofMse : ℚ → PsnrV
deriving DecidableEq

/-! ## Edge-band mask (`calculate_metrics_edges_only`, lines 592-598)

The source builds `edge_mask` by setting the first/last `edge_thickness`
rows and columns to `True`:

    edge_mask[:edge_thickness, :] = True
    edge_mask[-edge_thickness:, :] = True
    edge_mask[:, :edge_thickness] = True
    edge_mask[:, -edge_thickness:] = True

For `0 < t`, the Python slice `[-t:]` selects the rows with index
`≥ max(H - t, 0)`, which is `H - t` in truncated natural subtraction. -/

/-- Membership of pixel `p` in the edge-band mask of thickness `t` for an
`H × W` image, before any alpha intersection. -/
def edgeMaskPre (H W t : ℕ) (p : ℕ × ℕ) : Prop :=
  p.1 < t ∨ H - t ≤ p.1 ∨ p.2 < t ∨ W - t ≤ p.2

instance (H W t : ℕ) (p : ℕ × ℕ) : Decidable (edgeMaskPre H W t p) := by
  unfold edgeMaskPre; infer_instance

/-- Number of pixels selected by the edge-band mask before the alpha
intersection (`valid_pixel_count` of the pure border band). -/
def edgeMaskCount (H W t : ℕ) : ℕ :=
  ((pixGrid H W).filter (edgeMaskPre H W t)).card

lemma natCast_sub_eq_max (n m : ℕ) : ((n - m : ℕ) : ℤ) = max 0 ((n : ℤ) - m) := by
  omega

lemma interior_filter_eq (H W t : ℕ) :
    (pixGrid H W).filter (fun p => ¬ edgeMaskPre H W t p) =
      Finset.Ico t (H - t) ×ˢ Finset.Ico t (W - t) := by
  ext p
  simp only [pixGrid, edgeMaskPre, Finset.mem_filter, Finset.mem_product,
    Finset.mem_range, Finset.mem_Ico, not_or, not_lt, not_le]
  omega

lemma edgeMaskCount_eq_nat (H W t : ℕ) :
    edgeMaskCount H W t = H * W - (H - 2 * t) * (W - 2 * t) := by
  have hsplit :
      ((pixGrid H W).filter (edgeMaskPre H W t)).card
        + ((pixGrid H W).filter (fun p => ¬ edgeMaskPre H W t p)).card
        = (pixGrid H W).card :=
    Finset.filter_card_add_filter_neg_card_eq_card (fun p => edgeMaskPre H W t p)
  have hgrid : (pixGrid H W).card = H * W := by
    simp [pixGrid]
  have hint : ((pixGrid H W).filter (fun p => ¬ edgeMaskPre H W t p)).card
      = (H - 2 * t) * (W - 2 * t) := by
    rw [interior_filter_eq, Finset.card_product, Nat.card_Ico, Nat.card_Ico]
    have e1 : H - t - t = H - 2 * t := by omega
    have e2 : W - t - t = W - 2 * t := by omega
    rw [e1, e2]
  unfold edgeMaskCount
  omega

/-- Claim C2 (confirmed): for every image size `H × W` and every positive
edge thickness `t`, the `EDGES_ONLY` border-band mask built before any
alpha intersection selects exactly `H*W - max(0, H-2t) * max(0, W-2t)`
pixels. -/
theorem edge_band_count_eq (H W t : ℕ) (_ht : 0 < t) :
    (edgeMaskCount H W t : ℤ)
      = H * W - max 0 ((H : ℤ) - 2 * t) * max 0 ((W : ℤ) - 2 * t) := by
  have h := edgeMaskCount_eq_nat H W t
  have h1 := natCast_sub_eq_max H (2 * t)
  have h2 := natCast_sub_eq_max W (2 * t)
  have hle : (H - 2 * t) * (W - 2 * t) ≤ H * W :=
    Nat.mul_le_mul (Nat.sub_le _ _) (Nat.sub_le _ _)
  have hcast : ((H * W - (H - 2 * t) * (W - 2 * t) : ℕ) : ℤ)
      = (H : ℤ) * W - ((H - 2 * t : ℕ) : ℤ) * ((W - 2 * t : ℕ) : ℤ) := by
    push_cast [Nat.cast_sub hle]
    ring
  rw [h, hcast, h1, h2]
  push_cast
  ring

/-- Witness for C2 at `H = 4`, `W = 5`, `t = 1`: the band has
`20 - 2*3 = 14` pixels. -/
theorem edge_band_count_eq_witness :
    (0 : ℕ) < 1 ∧ (edgeMaskCount 4 5 1 : ℤ)
      = 4 * 5 - max 0 ((4 : ℤ) - 2 * 1) * max 0 ((5 : ℤ) - 2 * 1) :=
  ⟨by decide, edge_band_count_eq 4 5 1 (by decide)⟩

/-! ## Grayscale conversion (`cv2.cvtColor`)

The source converts the reference image (a BGR array, as loaded by
`cv2.imread`) with `cv2.COLOR_BGR2GRAY` and the render (converted to RGB
order) with `cv2.COLOR_RGB2GRAY`.  Both use the ITU-R 601 luma weights
0.299 / 0.587 / 0.114 applied to the R/G/B values; they differ in which
channel index is taken as red.  The model keeps the exact rational
weighted sum (the `uint8` rounding performed by OpenCV is a library detail
no claim depends on). -/

/-- `cv2.COLOR_RGB2GRAY` applied to an array with channel order R,G,B. -/
def grayRGB (A : Img) : ℕ × ℕ → ℚ := fun p =>
  (299 * (A.px p.1 p.2 0 : ℚ) + 587 * (A.px p.1 p.2 1 : ℚ)
    + 114 * (A.px p.1 p.2 2 : ℚ)) / 1000

/-- `cv2.COLOR_BGR2GRAY` applied to an array with channel order B,G,R. -/
def grayBGR (A : Img) : ℕ × ℕ → ℚ := fun p =>
  (114 * (A.px p.1 p.2 0 : ℚ) + 587 * (A.px p.1 p.2 1 : ℚ)
    + 299 * (A.px p.1 p.2 2 : ℚ)) / 1000

/-! ## SSIM model (`skimage.metrics.structural_similarity`)

The repository calls the scikit-image SSIM with `data_range=255` and
either `gaussian_weights=True, use_sample_covariance=False` (the GRAY
paths) or the library defaults (the per-channel and batch paths).  The
library computes, per pixel `r`, window-weighted means `ux, uy`, variances
`vx, vy` and covariance `vxy` (scaled by a covariance normalization:
`1` when `use_sample_covariance=False`, `NP/(NP-1)` otherwise), forms

    S r = ((2*ux*uy + C1) * (2*vxy + C2))
            / ((ux² + uy² + C1) * (vx + vy + C2)),

with `C1 = (0.01*255)²`, `C2 = (0.03*255)²`, and averages `S` over the
crop region that excludes the filter padding.  The model below is that
formula, parametric in the window `w` (row of weights per output pixel),
the crop region and the covariance normalization `covn`, since the exact
Gaussian/uniform window coefficients and the pad size are library
internals; rational arithmetic keeps it computable. -/

/-- `C1 = (0.01 * 255)^2`. -/
def ssimC1 : ℚ := 65025 / 10000

/-- `C2 = (0.03 * 255)^2`. -/
def ssimC2 : ℚ := 585225 / 10000

/-- Window-weighted filtering of a scalar image `X` at output pixel `r`. -/
def filtW (H W : ℕ) (w : ℕ × ℕ → ℕ × ℕ → ℚ) (X : ℕ × ℕ → ℚ) (r : ℕ × ℕ) : ℚ :=
  ∑ p in pixGrid H W, w r p * X p

/-- The window-weighted variance of `X` at `r` (times the covariance
normalization): `vx = cov_norm * (uxx - ux * ux)`. -/
def varW (covn : ℚ) (H W : ℕ) (w : ℕ × ℕ → ℕ × ℕ → ℚ)
    (X : ℕ × ℕ → ℚ) (r : ℕ × ℕ) : ℚ :=
  covn * (filtW H W w (fun p => X p * X p) r - filtW H W w X r * filtW H W w X r)

/-- The window-weighted covariance of `X` and `Y` at `r` (times the
covariance normalization): `vxy = cov_norm * (uxy - ux * uy)`. -/
def covW (covn : ℚ) (H W : ℕ) (w : ℕ × ℕ → ℕ × ℕ → ℚ)
    (X Y : ℕ × ℕ → ℚ) (r : ℕ × ℕ) : ℚ :=
  covn * (filtW H W w (fun p => X p * Y p) r - filtW H W w X r * filtW H W w Y r)

/-- The local SSIM value at output pixel `r`. -/
def ssimMap (covn : ℚ) (H W : ℕ) (w : ℕ × ℕ → ℕ × ℕ → ℚ)
    (X Y : ℕ × ℕ → ℚ) (r : ℕ × ℕ) : ℚ :=
  ((2 * filtW H W w X r * filtW H W w Y r + ssimC1)
      * (2 * covW covn H W w X Y r + ssimC2))
    / ((filtW H W w X r * filtW H W w X r + filtW H W w Y r * filtW H W w Y r + ssimC1)
      * (varW covn H W w X r + varW covn H W w Y r + ssimC2))

/-- Mean SSIM: the local SSIM map averaged over the crop region. -/
def mssim (covn : ℚ) (H W : ℕ) (w : ℕ × ℕ → ℕ × ℕ → ℚ)
    (crop : Finset (ℕ × ℕ)) (X Y : ℕ × ℕ → ℚ) : ℚ :=
  (∑ r in crop, ssimMap covn H W w X Y r) / (crop.card : ℚ)

/-- A normalized nonnegative window row: the effective weights any
(Gaussian or uniform) `ndimage` filter with edge padding places on the
pixels of the image. -/
def windowRow (H W : ℕ) (w : ℕ × ℕ → ℕ × ℕ → ℚ) (r : ℕ × ℕ) : Prop :=
  (∀ p ∈ pixGrid H W, 0 ≤ w r p) ∧ (∑ p in pixGrid H W, w r p) = 1

/-! ## Mean-squared errors and PSNR of the three comparison modes -/

/-- PSNR from a mean-squared error, as computed by
`calculate_metrics_no_transparent`:
`float('inf')` when `mse == 0`, else `20 * log10(255 / sqrt(mse))`. -/
def psnrOfMse (mse : ℚ) : PsnrV :=
  if mse = 0 then PsnrV.inf else PsnrV.ofMse mse

/-- `calculate_metrics_standard`: skimage `peak_signal_noise_ratio` over
the first three channels of both images — the exact (float-promoted)
squared differences averaged over all `H*W*3` samples. -/
def mseStandard (render orig : Img) : ℚ :=
  (∑ p in render.pixels, ∑ c in Finset.range 3,
      ((render.px p.1 p.2 c - orig.px p.1 p.2 c : ℤ) : ℚ) ^ 2)
    / (3 * render.H * render.W)

/-- The PSNR returned by `calculate_metrics_standard`
(`10*log10(255²/err)`, which is IEEE infinity when `err = 0`). -/
def psnrStandard (render orig : Img) : PsnrV :=
  psnrOfMse (mseStandard render orig)

/-- The SSIM returned by the GRAY branch of `calculate_metrics_standard`:
`ssim(original_gray, rendered_gray, data_range=255, gaussian_weights=True,
use_sample_covariance=False)` where the original (BGR) is converted with
`COLOR_BGR2GRAY` and the render (RGB) with `COLOR_RGB2GRAY`. -/
def ssimGrayStandard (w : ℕ × ℕ → ℕ × ℕ → ℚ) (crop : Finset (ℕ × ℕ))
    (render orig : Img) : ℚ :=
  mssim 1 render.H render.W w crop (grayBGR orig) (grayRGB render)

/-- Per-channel SSIM of `ssim_color` / `ssim_weighted`
(`ssim(img1[:,:,c], img2[:,:,c], data_range=255)`, library defaults). -/
def ssimChannel (covn : ℚ) (w : ℕ × ℕ → ℕ × ℕ → ℚ) (crop : Finset (ℕ × ℕ))
    (A B : Img) (c : ℕ) : ℚ :=
  mssim covn A.H A.W w crop (fun p => (A.px p.1 p.2 c : ℚ))
    (fun p => (B.px p.1 p.2 c : ℚ))

/-- `ssim_color`: the three per-channel SSIM values averaged equally. -/
def ssimColor (covn : ℚ) (w : ℕ × ℕ → ℕ × ℕ → ℚ) (crop : Finset (ℕ × ℕ))
    (A B : Img) : ℚ :=
  (ssimChannel covn w crop A B 0 + ssimChannel covn w crop A B 1
    + ssimChannel covn w crop A B 2) / 3

/-! ## `calculate_metrics_no_transparent` (EXCLUDE_TRANSPARENT mode) -/

/-- Number of non-transparent pixels of the rendered image
(`np.count_nonzero(alpha_mask)` with `alpha_mask = alpha > 0`). -/
def alphaCount (A : Img) : ℕ :=
  (A.pixels.filter (fun p => 0 < A.px p.1 p.2 3)).card

/-- The MSE computed for the RGBA branch:
`np.mean((image1_rgb[alpha_mask] - image2_rgb[alpha_mask]) ** 2)`.
Both operands are un-promoted `uint8` arrays, so the subtraction and the
squaring each wrap modulo 256. -/
def mseNoTransparent (A B : Img) : ℚ :=
  (∑ p in A.pixels.filter (fun p => 0 < A.px p.1 p.2 3), ∑ c in Finset.range 3,
      (u8sq (u8sub (A.px p.1 p.2 c) (B.px p.1 p.2 c)) : ℚ))
    / (3 * alphaCount A)

/-- Modelled from the spec's words, for comparison with
`mseNoTransparent`: the mean of squared per-channel differences of the
pixel values promoted to floating point — exact integer differences, no
modulo-256 wraparound — over masked pixels only. -/
def mseNoTransparentSpec (A B : Img) : ℚ :=
  (∑ p in A.pixels.filter (fun p => 0 < A.px p.1 p.2 3), ∑ c in Finset.range 3,
      ((A.px p.1 p.2 c - B.px p.1 p.2 c : ℤ) : ℚ) ^ 2)
    / (3 * alphaCount A)

/-- The MSE of the 3-channel branch (no alpha channel, all pixels), again
on un-promoted `uint8` arrays. -/
def mseNoTransparent3 (A B : Img) : ℚ :=
  (∑ p in A.pixels, ∑ c in Finset.range 3,
      (u8sq (u8sub (A.px p.1 p.2 c) (B.px p.1 p.2 c)) : ℚ))
    / (3 * A.H * A.W)

/-- A grayscale image with the non-masked (transparent) pixels zeroed:
`np.where(alpha_mask, gray, 0)`. -/
def alphaMasked (A : Img) (g : ℕ × ℕ → ℚ) : ℕ × ℕ → ℚ := fun p =>
  if 0 < A.px p.1 p.2 3 then g p else 0

/-- `calculate_metrics_no_transparent` (GRAY SSIM branch, the default):
for an RGBA render, masks by `alpha > 0`; a fully transparent render
returns the degenerate `(0, 0)`; otherwise PSNR from the (wrapping) masked
MSE and SSIM on the zero-masked grayscale images. -/
def calcNoTransparent (w : ℕ × ℕ → ℕ × ℕ → ℚ) (crop : Finset (ℕ × ℕ))
    (A B : Img) : PsnrV × ℚ :=
  if A.C = 4 then
    if alphaCount A = 0 then (PsnrV.sentinel 0, 0)
    else (psnrOfMse (mseNoTransparent A B),
      mssim 1 A.H A.W w crop (alphaMasked A (grayRGB A)) (alphaMasked A (grayBGR B)))
  else
    (psnrOfMse (mseNoTransparent3 A B),
      mssim 1 A.H A.W w crop (grayRGB A) (grayBGR B))

/-! ## `calculate_metrics_edges_only` (EDGES_ONLY mode) -/

/-- The final mask of the edge-only comparison: the border band,
intersected with the transparency mask when the render has an alpha
channel, falling back to the plain transparency mask when the
intersection is empty. -/
def edgesMask (A : Img) (t : ℕ) : Finset (ℕ × ℕ) :=
  let em := A.pixels.filter (edgeMaskPre A.H A.W t)
  if A.C = 4 then
    let am := A.pixels.filter (fun p => 0 < A.px p.1 p.2 3)
    if (em ∩ am).card = 0 then am else em ∩ am
  else em

/-- The edge-only MSE: both images are zeroed outside the mask, so the sum
of squared (float-promoted) differences ranges over the masked pixels, and
is divided by `valid_pixel_count` and by 3. -/
def mseEdges (A B : Img) (t : ℕ) : ℚ :=
  (∑ p in edgesMask A t, ∑ c in Finset.range 3,
      ((A.px p.1 p.2 c - B.px p.1 p.2 c : ℤ) : ℚ) ^ 2)
    / ((edgesMask A t).card * 3)

/-- The PSNR returned by `calculate_metrics_edges_only`: `0` when the mask
is empty, `10*log10(255²/mse)` when `mse > 0`, and the finite sentinel
`100` when `mse == 0`. -/
def psnrEdges (A B : Img) (t : ℕ) : PsnrV :=
  if (edgesMask A t).card = 0 then PsnrV.sentinel 0
  else if 0 < mseEdges A B t then PsnrV.ofMse (mseEdges A B t)
  else PsnrV.sentinel 100

/-! ## Facts about the SSIM formula -/

lemma weighted_sq_le (s : Finset (ℕ × ℕ)) (w x : ℕ × ℕ → ℚ)
    (hw : ∀ p ∈ s, 0 ≤ w p) (h1 : ∑ p in s, w p = 1) :
    (∑ p in s, w p * x p) ^ 2 ≤ ∑ p in s, w p * (x p * x p) := by
  have hA : ∑ p in s, ∑ q in s, (w p * w q) * (x p * x p)
      = ∑ p in s, w p * (x p * x p) := by
    refine Finset.sum_congr rfl fun p _ => ?_
    calc ∑ q in s, (w p * w q) * (x p * x p)
        = ∑ q in s, (w p * (x p * x p)) * w q :=
          Finset.sum_congr rfl fun q _ => by ring
      _ = (w p * (x p * x p)) * ∑ q in s, w q := by rw [Finset.mul_sum]
      _ = w p * (x p * x p) := by rw [h1, mul_one]
  have hB : ∑ p in s, ∑ q in s, (w p * w q) * (x q * x q)
      = ∑ p in s, w p * (x p * x p) := by
    rw [Finset.sum_comm]
    refine Finset.sum_congr rfl fun q _ => ?_
    calc ∑ p in s, (w p * w q) * (x q * x q)
        = ∑ p in s, (w q * (x q * x q)) * w p :=
          Finset.sum_congr rfl fun p _ => by ring
      _ = (w q * (x q * x q)) * ∑ p in s, w p := by rw [Finset.mul_sum]
      _ = w q * (x q * x q) := by rw [h1, mul_one]
  have hC : (∑ p in s, w p * x p) ^ 2
      = ∑ p in s, ∑ q in s, (w p * w q) * (x p * x q) := by
    rw [sq, Finset.sum_mul_sum]
    exact Finset.sum_congr rfl fun p _ => Finset.sum_congr rfl fun q _ => by ring
  have hpos : 0 ≤ ∑ p in s, ∑ q in s, (w p * w q) * (x p - x q) ^ 2 := by
    refine Finset.sum_nonneg fun p hp => Finset.sum_nonneg fun q hq => ?_
    exact mul_nonneg (mul_nonneg (hw p hp) (hw q hq)) (sq_nonneg _)
  have hkey : ∑ p in s, ∑ q in s, (w p * w q) * (x p - x q) ^ 2
      = (∑ p in s, ∑ q in s, (w p * w q) * (x p * x p))
        + (∑ p in s, ∑ q in s, (w p * w q) * (x q * x q))
        - 2 * (∑ p in s, ∑ q in s, (w p * w q) * (x p * x q)) := by
    have hsplit : ∀ p ∈ s, ∑ q in s, (w p * w q) * (x p - x q) ^ 2
        = (∑ q in s, (w p * w q) * (x p * x p))
          + (∑ q in s, (w p * w q) * (x q * x q))
          - 2 * (∑ q in s, (w p * w q) * (x p * x q)) := by
      intro p _
      rw [← Finset.sum_add_distrib, Finset.mul_sum, ← Finset.sum_sub_distrib]
      exact Finset.sum_congr rfl fun q _ => by ring
    calc ∑ p in s, ∑ q in s, (w p * w q) * (x p - x q) ^ 2
        = ∑ p in s, ((∑ q in s, (w p * w q) * (x p * x p))
            + (∑ q in s, (w p * w q) * (x q * x q))
            - 2 * (∑ q in s, (w p * w q) * (x p * x q))) :=
          Finset.sum_congr rfl hsplit
      _ = _ := by
          rw [Finset.sum_sub_distrib, Finset.sum_add_distrib, ← Finset.mul_sum]
  rw [hA, hB, ← hC] at hkey
  linarith

lemma ssimC1_pos : (0 : ℚ) < ssimC1 := by norm_num [ssimC1]

lemma ssimC2_pos : (0 : ℚ) < ssimC2 := by norm_num [ssimC2]

/-- On identical inputs every local SSIM value is exactly 1, for any
nonnegative covariance normalization and any normalized nonnegative
window row. -/
lemma ssimMap_self (covn : ℚ) (H W : ℕ) (w : ℕ × ℕ → ℕ × ℕ → ℚ)
    (X : ℕ × ℕ → ℚ) (r : ℕ × ℕ) (hc : 0 ≤ covn) (hr : windowRow H W w r) :
    ssimMap covn H W w X X r = 1 := by
  have hcv : covW covn H W w X X r = varW covn H W w X r := rfl
  unfold ssimMap
  rw [hcv]
  set u := filtW H W w X r with hu
  set v := varW covn H W w X r with hv
  have hvnn : 0 ≤ v := by
    rw [hv, varW]
    refine mul_nonneg hc (sub_nonneg.2 ?_)
    have hle := weighted_sq_le (pixGrid H W) (w r) X hr.1 hr.2
    calc filtW H W w X r * filtW H W w X r
        = (∑ p in pixGrid H W, w r p * X p) ^ 2 := by rw [filtW, sq]
      _ ≤ ∑ p in pixGrid H W, w r p * (X p * X p) := hle
      _ = filtW H W w (fun p => X p * X p) r := rfl
  have hd1 : 0 < u * u + u * u + ssimC1 := by
    have := mul_self_nonneg u
    have := ssimC1_pos
    linarith
  have hd2 : 0 < v + v + ssimC2 := by
    have := ssimC2_pos
    linarith
  have hnum : (2 * u * u + ssimC1) * (2 * v + ssimC2)
      = (u * u + u * u + ssimC1) * (v + v + ssimC2) := by ring
  rw [hnum]
  exact div_self (ne_of_gt (mul_pos hd1 hd2))

/-- On identical inputs the mean SSIM is exactly 1, given a nonempty crop
region and normalized nonnegative window rows. -/
lemma mssim_self (covn : ℚ) (H W : ℕ) (w : ℕ × ℕ → ℕ × ℕ → ℚ)
    (crop : Finset (ℕ × ℕ)) (X : ℕ × ℕ → ℚ) (hc : 0 ≤ covn)
    (hcrop : crop.Nonempty) (hw : ∀ r ∈ crop, windowRow H W w r) :
    mssim covn H W w crop X X = 1 := by
  unfold mssim
  rw [Finset.sum_congr rfl fun r hr => ssimMap_self covn H W w X r hc (hw r hr)]
  rw [Finset.sum_const, nsmul_eq_mul, mul_one]
  exact div_self (Nat.cast_ne_zero.2 hcrop.card_pos.ne')

/-- The local SSIM formula is symmetric in its two inputs. -/
lemma ssimMap_symm (covn : ℚ) (H W : ℕ) (w : ℕ × ℕ → ℕ × ℕ → ℚ)
    (X Y : ℕ × ℕ → ℚ) (r : ℕ × ℕ) :
    ssimMap covn H W w X Y r = ssimMap covn H W w Y X r := by
  unfold ssimMap covW varW
  have hxy : (fun p => X p * Y p) = fun p => Y p * X p := by
    funext p; ring
  rw [hxy]
  ring

/-- The mean SSIM is symmetric in its two inputs. -/
lemma mssim_symm (covn : ℚ) (H W : ℕ) (w : ℕ × ℕ → ℕ × ℕ → ℚ)
    (crop : Finset (ℕ × ℕ)) (X Y : ℕ × ℕ → ℚ) :
    mssim covn H W w crop X Y = mssim covn H W w crop Y X := by
  unfold mssim
  rw [Finset.sum_congr rfl fun r _ => ssimMap_symm covn H W w X Y r]

/-! ## `create_diff_image` (RGBA branch, COLORIZED view mode) -/

/-- `np.clip(x, 0, 255).astype(np.uint8)` applied to a nonnegative scaled
difference: clamp to [0, 255], then truncate to an integer. -/
def clipByte (x : ℚ) : ℤ := ⌊max 0 (min 255 x)⌋

/-- The per-channel value of the COLORIZED diff image for an RGBA render:
for the three color channels, the absolute `int16` difference where the
alpha mask holds (stored into a `uint8` array, hence reduced mod 256) and
`0` elsewhere, then scaled by `diff_multiplier` and clipped; the alpha
channel (index 3) is `255` inside the mask and `0` outside. -/
def diffColorized (A B : Img) (m : ℚ) (i j c : ℕ) : ℤ :=
  if c = 3 then (if 0 < A.px i j 3 then 255 else 0)
  else clipByte (m * ((if 0 < A.px i j 3 then |A.px i j c - B.px i j c| % 256 else 0) : ℤ))

/-! ## Normalization / resize (`execute` and `calculate_image_metrics`) -/

/-- The interpolation kernel requested from `cv2.resize`:
`cv2.INTER_AREA` (area-averaging) or the default `cv2.INTER_LINEAR`. -/
inductive Interp where
  | area : Interp
  | linear : Interp
deriving DecidableEq

/-- `cv2.resize(img, (w, h), interpolation=...)`: an external library
routine.  The output dimensions and channel count are determined; the
pixel content is supplied by the kernel family `k`, over which all
theorems quantify. -/
def resize (k : Interp → Img → ℕ → ℕ → (ℕ → ℕ → ℕ → ℤ)) (interp : Interp)
    (A : Img) (h w : ℕ) : Img :=
  ⟨h, w, A.C, k interp A h w⟩

/-- The normalization step of `RCMETRICS_OT_Compare.execute` (lines
748-751): if the original image's height/width differ from the render's,
resize the original to the render's dimensions with `cv2.INTER_AREA`. -/
def normalizeCompare (k : Interp → Img → ℕ → ℕ → (ℕ → ℕ → ℕ → ℤ))
    (render orig : Img) : Img × Img :=
  if (orig.H, orig.W) ≠ (render.H, render.W) then
    (render, resize k Interp.area orig render.H render.W)
  else (render, orig)

/-- The resize step of `calculate_image_metrics`
(`src/utils/image_utils.py`, lines 36-48): if the full shapes (including
channel count) differ, resize the RENDERED image to the REFERENCE image's
dimensions with the default interpolation (`cv2.INTER_LINEAR`). -/
def normalizeBatch (k : Interp → Img → ℕ → ℕ → (ℕ → ℕ → ℕ → ℤ))
    (ref rnd : Img) : Img × Img :=
  if (ref.H, ref.W, ref.C) ≠ (rnd.H, rnd.W, rnd.C) then
    (ref, resize k Interp.linear rnd ref.H ref.W)
  else (ref, rnd)

/-! ## `calculate_image_metrics` (batch metric path) -/

/-- skimage `peak_signal_noise_ratio(ref_img, rendered_img)` on the full
arrays: exact squared differences averaged over all `H*W*C` samples. -/
def mseFull (A B : Img) : ℚ :=
  (∑ p in A.pixels, ∑ c in Finset.range A.C,
      ((A.px p.1 p.2 c - B.px p.1 p.2 c : ℤ) : ℚ) ^ 2)
    / (A.H * A.W * A.C)

/-- `calculate_image_metrics(ref_img, rendered_img)` of
`src/utils/image_utils.py`: `(None, None)` for an empty image, for any
dimension below 10 pixels, or for a shape mismatch surviving the resize;
otherwise PSNR on the full arrays and default-parameter SSIM on the
BGR-grayscale conversions. -/
def calcImageMetricsBatch (k : Interp → Img → ℕ → ℕ → (ℕ → ℕ → ℕ → ℤ))
    (covn : ℚ) (w : ℕ × ℕ → ℕ × ℕ → ℚ) (crop : Finset (ℕ × ℕ))
    (ref rnd : Img) : Option PsnrV × Option ℚ :=
  if ref.H * ref.W * ref.C = 0 ∨ rnd.H * rnd.W * rnd.C = 0 then (none, none)
  else if ref.H < 10 ∨ ref.W < 10 ∨ rnd.H < 10 ∨ rnd.W < 10 then (none, none)
  else
    let rnd2 := (normalizeBatch k ref rnd).2
    if (ref.H, ref.W, ref.C) ≠ (rnd2.H, rnd2.W, rnd2.C) then (none, none)
    else (some (psnrOfMse (mseFull ref rnd2)),
      some (mssim covn ref.H ref.W w crop (grayBGR ref) (grayBGR rnd2)))

/-! ## Batch aggregation (`update_metrics_summary` and the initial summary
of `RCMETRICS_OT_CalculateMetrics.invoke`) -/

/-- The running metrics summary: the per-camera result list and the
min/max/average fields.  `minPsnr`/`minSsim` live in `WithTop ℚ` so the
initial `float('inf')` is representable. -/
structure Summary where
  cams : List (String × ℚ × ℚ)
  minPsnr : WithTop ℚ
  maxPsnr : ℚ
  minSsim : WithTop ℚ
  maxSsim : ℚ
  avgPsnr : ℚ
  avgSsim : ℚ
deriving DecidableEq

/-- The summary built in `invoke`: empty camera list, `min_* = float('inf')`,
`max_* = 0.0`, `average_* = 0.0`. -/
def initSummary : Summary :=
  ⟨[], ⊤, 0, ⊤, 0, 0, 0⟩

/-- `update_metrics_summary(metrics_summary, camera_name, psnr, ssim)`:
append the camera's result, update min/max by comparison, and recompute
both averages from the full camera list. -/
def updateSummary (s : Summary) (name : String) (p q : ℚ) : Summary :=
  let cams := s.cams ++ [(name, p, q)]
  { cams := cams
    minPsnr := if (p : WithTop ℚ) < s.minPsnr then (p : WithTop ℚ) else s.minPsnr
    maxPsnr := if s.maxPsnr < p then p else s.maxPsnr
    minSsim := if (q : WithTop ℚ) < s.minSsim then (q : WithTop ℚ) else s.minSsim
    maxSsim := if s.maxSsim < q then q else s.maxSsim
    avgPsnr := (cams.map (fun x => x.2.1)).sum / (cams.length : ℚ)
    avgSsim := (cams.map (fun x => x.2.2)).sum / (cams.length : ℚ) }

/-- A whole batch: fold `update_metrics_summary` over the successfully
compared (camera, psnr, ssim) triples, starting from the `invoke`
summary. -/
def summarize (l : List (String × ℚ × ℚ)) : Summary :=
  l.foldl (fun s x => updateSummary s x.1 x.2.1 x.2.2) initSummary

/-! ## Concrete images used by counterexamples and witnesses -/

/-- A 1×1 RGB image with all channels 7. -/
def imgStdId : Img := ⟨1, 1, 3, fun _ _ _ => 7⟩

/-- A 1×1 RGBA image with all channels (including alpha) equal to 10. -/
def imgNTId : Img := ⟨1, 1, 4, fun _ _ _ => 10⟩

/-- A 1×1 opaque RGBA image with color (16, 16, 16). -/
def imgWrapA : Img := ⟨1, 1, 4, fun _ _ c => if c = 3 then 255 else 16⟩

/-- A 1×1 RGB image with color (0, 0, 0). -/
def imgWrapB : Img := ⟨1, 1, 3, fun _ _ _ => 0⟩

/-- A 3×3 RGB image with all channels 5. -/
def imgEdgesW : Img := ⟨3, 3, 3, fun _ _ _ => 5⟩

/-- The all-zero window (any window instantiation refutes a universally
quantified claim). -/
def wZero : ℕ × ℕ → ℕ × ℕ → ℚ := fun _ _ => 0

/-- The constant-one window: a normalized nonnegative window row on a 1×1
image. -/
def wOne : ℕ × ℕ → ℕ × ℕ → ℚ := fun _ _ => 1

/-! ## Claim C1 -/

/-- Claim C1 as stated is false: comparing the valid 1×1 image `imgStdId`
against itself in STANDARD mode yields PSNR = IEEE infinity (skimage
`10*log10(255²/0)`), not the finite sentinel 100. -/
theorem standard_identity_counterexample :
    ¬ (psnrStandard imgStdId imgStdId = PsnrV.sentinel 100 ∧
        |ssimGrayStandard wZero ∅ imgStdId imgStdId - 1| ≤ 1 / 1000000) := by
  intro h
  have hpsnr : psnrStandard imgStdId imgStdId = PsnrV.inf := by
    unfold psnrStandard psnrOfMse
    rw [if_pos]
    unfold mseStandard
    simp
  rw [hpsnr] at h
  exact PsnrV.noConfusion h.1

/-- Claim C1 (corrected): comparing a valid image `A` against itself in
STANDARD mode yields PSNR = +infinity (not the finite sentinel 100), and
SSIM exactly 1 whenever the two grayscale conversions of `A` coincide —
which holds when `A`'s channel 0 and channel 2 are equal, since the
reference slot is converted with BGR weights and the render slot with RGB
weights. -/
theorem standard_identity_amended (A : Img) (w : ℕ × ℕ → ℕ × ℕ → ℚ)
    (crop : Finset (ℕ × ℕ)) (hcrop : crop.Nonempty)
    (hw : ∀ r ∈ crop, windowRow A.H A.W w r)
    (hRB : ∀ i j, A.px i j 0 = A.px i j 2) :
    psnrStandard A A = PsnrV.inf ∧ ssimGrayStandard w crop A A = 1 := by
  constructor
  · unfold psnrStandard psnrOfMse
    rw [if_pos]
    unfold mseStandard
    simp
  · unfold ssimGrayStandard
    have hg : grayBGR A = grayRGB A := by
      funext p
      unfold grayBGR grayRGB
      rw [hRB p.1 p.2]
      ring
    rw [hg]
    exact mssim_self 1 A.H A.W w crop (grayRGB A) (by norm_num) hcrop hw

/-- Witness for C1's amended theorem: the 1×1 constant image, with the
constant-one window on its single pixel. -/
theorem standard_identity_amended_witness :
    psnrStandard imgStdId imgStdId = PsnrV.inf ∧
      ssimGrayStandard wOne {(0, 0)} imgStdId imgStdId = 1 :=
  standard_identity_amended imgStdId wOne {(0, 0)} ⟨(0, 0), by decide⟩
    (by
      intro r _
      constructor
      · intro p _
        norm_num [wOne]
      · simp [pixGrid, wOne, imgStdId])
    (fun _ _ => rfl)

/-! ## Claim C3 -/

/-- Claim C3 as stated is false: in EXCLUDE_TRANSPARENT mode, comparing
the opaque 1×1 image `imgNTId` against itself gives a masked MSE of
exactly 0, yet the returned PSNR is `float('inf')`, not the finite
sentinel 100. -/
theorem no_transparent_zero_mse_counterexample :
    mseNoTransparent imgNTId imgNTId = 0 ∧
    (calcNoTransparent wZero ∅ imgNTId imgNTId).1 = PsnrV.inf ∧
    PsnrV.inf ≠ PsnrV.sentinel 100 := by
  have hmse : mseNoTransparent imgNTId imgNTId = 0 := by
    have hf : imgNTId.pixels.filter (fun p => 0 < imgNTId.px p.1 p.2 3)
        = {(0, 0)} := by decide
    unfold mseNoTransparent
    rw [hf]
    simp [Finset.sum_range_succ, u8sq, u8sub, imgNTId]
  refine ⟨hmse, ?_, fun h => PsnrV.noConfusion h⟩
  have hc : calcNoTransparent wZero ∅ imgNTId imgNTId
      = (psnrOfMse (mseNoTransparent imgNTId imgNTId),
          mssim 1 imgNTId.H imgNTId.W wZero ∅
            (alphaMasked imgNTId (grayRGB imgNTId))
            (alphaMasked imgNTId (grayBGR imgNTId))) := by
    unfold calcNoTransparent
    rw [if_pos (show imgNTId.C = 4 from rfl), if_neg (by decide)]
  rw [hc]
  unfold psnrOfMse
  rw [if_pos hmse]

/-- Claim C3 (corrected): only the EDGES_ONLY path uses the finite
sentinel — whenever the edge-mask is nonempty and the masked MSE is
exactly 0, `calculate_metrics_edges_only` returns PSNR = 100; the
STANDARD and EXCLUDE_TRANSPARENT paths return floating infinity instead
(see the counterexample). -/
theorem edges_zero_mse_sentinel (A B : Img) (t : ℕ)
    (hc : (edgesMask A t).card ≠ 0) (hm : mseEdges A B t = 0) :
    psnrEdges A B t = PsnrV.sentinel 100 := by
  unfold psnrEdges
  rw [if_neg hc, if_neg (by rw [hm]; exact lt_irrefl 0)]

/-- Witness for C3's amended theorem: identical 3×3 images with edge
thickness 1 (8 band pixels, zero MSE). -/
theorem edges_zero_mse_sentinel_witness :
    psnrEdges imgEdgesW imgEdgesW 1 = PsnrV.sentinel 100 :=
  edges_zero_mse_sentinel imgEdgesW imgEdgesW 1 (by decide)
    (by unfold mseEdges; simp)

/-! ## Claim C4 -/

/-- Claim C4 (confirmed): for an RGBA render whose alpha channel is zero
at every pixel, EXCLUDE_TRANSPARENT comparison returns the degenerate
`(psnr, ssim) = (0, 0)` — the guard on `valid_pixel_count == 0` fires
before any division. -/
theorem no_transparent_fully_transparent (w : ℕ × ℕ → ℕ × ℕ → ℚ)
    (crop : Finset (ℕ × ℕ)) (A B : Img) (hC : A.C = 4)
    (ha : ∀ i < A.H, ∀ j < A.W, A.px i j 3 = 0) :
    calcNoTransparent w crop A B = (PsnrV.sentinel 0, 0) := by
  have hcnt : alphaCount A = 0 := by
    unfold alphaCount
    rw [Finset.card_eq_zero, Finset.filter_eq_empty_iff]
    rintro ⟨i, j⟩ hp
    simp only [Img.pixels, pixGrid, Finset.mem_product, Finset.mem_range] at hp
    rw [ha i hp.1 j hp.2]
    exact lt_irrefl 0
  unfold calcNoTransparent
  rw [if_pos hC, if_pos hcnt]

/-- Witness for C4: a 1×1 RGBA image with alpha 0 everywhere. -/
theorem no_transparent_fully_transparent_witness :
    calcNoTransparent wZero ∅ (Img.mk 1 1 4 (fun _ _ c => if c = 3 then 0 else 5))
      (Img.mk 1 1 3 (fun _ _ _ => 9)) = (PsnrV.sentinel 0, 0) :=
  no_transparent_fully_transparent wZero ∅ _ _ rfl
    (fun _ _ _ _ => rfl)

/-! ## Claim C5 -/

/-- Claim C5 (code bug): in EXCLUDE_TRANSPARENT mode the masked MSE is
computed on un-promoted `uint8` arrays, so it wraps modulo 256 instead of
using exact promoted differences.  At the failing input — a 1×1 opaque
render with color (16,16,16) against a black reference — the code's MSE
is `mean(16² mod 256) = 0` and the returned PSNR is infinity (a "perfect
match"), while the exact MSE the spec describes is 256. -/
theorem no_transparent_mse_wraparound :
    mseNoTransparent imgWrapA imgWrapB = 0 ∧
    mseNoTransparentSpec imgWrapA imgWrapB = 256 ∧
    (calcNoTransparent wZero ∅ imgWrapA imgWrapB).1 = PsnrV.inf := by
  have hf : imgWrapA.pixels.filter (fun p => 0 < imgWrapA.px p.1 p.2 3)
      = {(0, 0)} := by decide
  have ha : alphaCount imgWrapA = 1 := by decide
  have hmse : mseNoTransparent imgWrapA imgWrapB = 0 := by
    unfold mseNoTransparent
    rw [hf, ha]
    simp [Finset.sum_range_succ, u8sq, u8sub, imgWrapA, imgWrapB]
  refine ⟨hmse, ?_, ?_⟩
  · unfold mseNoTransparentSpec
    rw [hf, ha]
    simp [Finset.sum_range_succ, imgWrapA, imgWrapB]
    norm_num
  · have hc : (calcNoTransparent wZero ∅ imgWrapA imgWrapB).1
        = psnrOfMse (mseNoTransparent imgWrapA imgWrapB) := by
      unfold calcNoTransparent
      rw [if_pos (show imgWrapA.C = 4 from rfl), if_neg (by decide)]
    rw [hc]
    unfold psnrOfMse
    rw [if_pos hmse]

/-! ## Claim C6 -/

/-- A 1×2 RGBA render: pixel (0,0) opaque with color (5,5,5), pixel (0,1)
transparent with color (9,9,9). -/
def imgSwapA : Img := ⟨1, 2, 4, fun _ j c =>
  if c = 3 then (if j = 0 then 255 else 0) else (if j = 0 then 5 else 9)⟩

/-- A 1×2 fully opaque RGBA image: colors (5,5,5) and (7,7,7). -/
def imgSwapB : Img := ⟨1, 2, 4, fun _ j c =>
  if c = 3 then 255 else (if j = 0 then 5 else 7)⟩

/-- Claim C6 as stated is false: in EXCLUDE_TRANSPARENT mode the
transparency mask is taken from the first (rendered) image, so swapping
the two inputs changes the returned PSNR — comparing `imgSwapA` against
`imgSwapB` masks out the differing pixel and returns infinity, while the
swapped call masks nothing out and returns a finite value. -/
theorem swap_no_transparent_counterexample :
    (calcNoTransparent wZero ∅ imgSwapA imgSwapB).1
      ≠ (calcNoTransparent wZero ∅ imgSwapB imgSwapA).1 := by
  have hfA : imgSwapA.pixels.filter (fun p => 0 < imgSwapA.px p.1 p.2 3)
      = {(0, 0)} := by decide
  have haA : alphaCount imgSwapA = 1 := by decide
  have hfB : imgSwapB.pixels.filter (fun p => 0 < imgSwapB.px p.1 p.2 3)
      = {(0, 0), (0, 1)} := by decide
  have haB : alphaCount imgSwapB = 2 := by decide
  have hmA : mseNoTransparent imgSwapA imgSwapB = 0 := by
    unfold mseNoTransparent
    rw [hfA, haA]
    simp [Finset.sum_range_succ, u8sq, u8sub, imgSwapA, imgSwapB]
  have hmB : mseNoTransparent imgSwapB imgSwapA = 2 := by
    have e0 : u8sq (u8sub 5 5) = 0 := by decide
    have e1 : u8sq (u8sub 7 9) = 4 := by decide
    unfold mseNoTransparent
    rw [hfB, haB]
    rw [Finset.sum_pair (by decide)]
    simp only [Finset.sum_range_succ, Finset.sum_range_zero, imgSwapA, imgSwapB]
    norm_num [e0, e1]
  have h1 : (calcNoTransparent wZero ∅ imgSwapA imgSwapB).1 = PsnrV.inf := by
    have hc : (calcNoTransparent wZero ∅ imgSwapA imgSwapB).1
        = psnrOfMse (mseNoTransparent imgSwapA imgSwapB) := by
      unfold calcNoTransparent
      rw [if_pos (show imgSwapA.C = 4 from rfl), if_neg (by decide)]
    rw [hc]
    unfold psnrOfMse
    rw [if_pos hmA]
  have h2 : (calcNoTransparent wZero ∅ imgSwapB imgSwapA).1 = PsnrV.ofMse 2 := by
    have hc : (calcNoTransparent wZero ∅ imgSwapB imgSwapA).1
        = psnrOfMse (mseNoTransparent imgSwapB imgSwapA) := by
      unfold calcNoTransparent
      rw [if_pos (show imgSwapB.C = 4 from rfl), if_neg (by decide)]
    rw [hc]
    unfold psnrOfMse
    rw [if_neg (by rw [hmB]; norm_num), hmB]
  rw [h1, h2]
  exact fun h => PsnrV.noConfusion h

/-- Claim C6 (corrected): swap invariance does hold for the STANDARD-mode
PSNR (the full-frame MSE is symmetric) and for the per-channel COLOR SSIM
(the SSIM formula is symmetric and both slots are converted identically);
it fails in the masked modes because the mask comes from the first
image's alpha channel, and for GRAY SSIM because the two slots use
different channel orders in the grayscale conversion. -/
theorem standard_swap_invariant (A B : Img) (hH : A.H = B.H) (hW : A.W = B.W)
    (covn : ℚ) (w : ℕ × ℕ → ℕ × ℕ → ℚ) (crop : Finset (ℕ × ℕ)) :
    psnrStandard A B = psnrStandard B A ∧
    ssimColor covn w crop A B = ssimColor covn w crop B A := by
  have hmse : mseStandard A B = mseStandard B A := by
    unfold mseStandard
    rw [Img.pixels, Img.pixels, hH, hW]
    congr 1
    refine Finset.sum_congr rfl fun p _ => Finset.sum_congr rfl fun c _ => ?_
    push_cast
    ring
  have hch : ∀ c, ssimChannel covn w crop A B c = ssimChannel covn w crop B A c := by
    intro c
    unfold ssimChannel
    rw [hH, hW]
    exact mssim_symm covn B.H B.W w crop _ _
  constructor
  · unfold psnrStandard
    rw [hmse]
  · unfold ssimColor
    rw [hch 0, hch 1, hch 2]

/-- Witness for C6's amended theorem: two 1×1 RGB images of equal size. -/
theorem standard_swap_invariant_witness :
    psnrStandard imgStdId imgWrapB = psnrStandard imgWrapB imgStdId ∧
    ssimColor 1 wOne {(0, 0)} imgStdId imgWrapB
      = ssimColor 1 wOne {(0, 0)} imgWrapB imgStdId :=
  standard_swap_invariant imgStdId imgWrapB rfl rfl 1 wOne {(0, 0)}

/-! ## Claim C7 -/

/-- Claim C7 (confirmed): with `diff_multiplier = 1.0` and the COLORIZED
view mode, for 8-bit-valid inputs every masked pixel of the diff image
carries exactly the absolute per-channel difference (which already lies in
[0,255], so the clip is the identity) with alpha 255, and every unmasked
pixel carries 0 in every color channel with alpha 0. -/
theorem diff_colorized_exact (A B : Img) (_hC : A.C = 4)
    (hA : validBytes A) (hB : validBytes B) (i j c : ℕ) (hc : c < 3) :
    (0 < A.px i j 3 →
      diffColorized A B 1 i j c = |A.px i j c - B.px i j c| ∧
      diffColorized A B 1 i j 3 = 255) ∧
    (¬ 0 < A.px i j 3 →
      diffColorized A B 1 i j c = 0 ∧ diffColorized A B 1 i j 3 = 0) := by
  have hcne : ¬ c = 3 := by omega
  have habs : 0 ≤ |A.px i j c - B.px i j c| ∧ |A.px i j c - B.px i j c| ≤ 255 := by
    have h1 := hA i j c
    have h2 := hB i j c
    constructor
    · exact abs_nonneg _
    · rcases abs_cases (A.px i j c - B.px i j c) with ⟨he, _⟩ | ⟨he, _⟩ <;> omega
  constructor
  · intro hmask
    constructor
    · unfold diffColorized
      rw [if_neg hcne, if_pos hmask]
      have hmod : |A.px i j c - B.px i j c| % 256 = |A.px i j c - B.px i j c| :=
        Int.emod_eq_of_lt habs.1 (by omega)
      rw [hmod, one_mul]
      unfold clipByte
      rw [min_eq_right (by exact_mod_cast habs.2),
        max_eq_right (by exact_mod_cast habs.1), Int.floor_intCast]
    · unfold diffColorized
      rw [if_pos rfl, if_pos hmask]
  · intro hmask
    constructor
    · unfold diffColorized
      rw [if_neg hcne, if_neg hmask, one_mul]
      norm_num [clipByte]
    · unfold diffColorized
      rw [if_pos rfl, if_neg hmask]

/-- A 1×1 opaque RGBA image with color (30, 30, 30). -/
def imgDiffA : Img := ⟨1, 1, 4, fun _ _ c => if c = 3 then 200 else 30⟩

/-- A 1×1 RGB image with color (55, 55, 55). -/
def imgDiffB : Img := ⟨1, 1, 3, fun _ _ _ => 55⟩

/-- Witness for C7: the single (masked) pixel of `imgDiffA` vs `imgDiffB`
gets the exact absolute difference and alpha 255. -/
theorem diff_colorized_exact_witness :
    diffColorized imgDiffA imgDiffB 1 0 0 0
        = |imgDiffA.px 0 0 0 - imgDiffB.px 0 0 0| ∧
    diffColorized imgDiffA imgDiffB 1 0 0 3 = 255 :=
  (diff_colorized_exact imgDiffA imgDiffB rfl
    (by intro i j c; by_cases h : c = 3 <;> simp [imgDiffA, h])
    (by intro i j c; simp [imgDiffB])
    0 0 0 (by decide)).1 (by decide)

/-! ## Claim C8 -/

/-- The all-zero resize kernel family (any kernel instantiation refutes a
universally quantified claim). -/
def kZero : Interp → Img → ℕ → ℕ → (ℕ → ℕ → ℕ → ℤ) := fun _ _ _ _ => fun _ _ _ => 0

/-- A 12×10 black reference image. -/
def imgRefBig : Img := ⟨12, 10, 3, fun _ _ _ => 0⟩

/-- A 10×10 black rendered image. -/
def imgRndSmall : Img := ⟨10, 10, 3, fun _ _ _ => 0⟩

/-- Claim C8 as stated is false for the batch path: with a 12×10 reference
and a 10×10 render, `calculate_image_metrics` resizes the RENDERED image
to the REFERENCE's dimensions (with the default bilinear kernel), so the
outcome is not "reference resized to the render's size, render
unchanged". -/
theorem batch_resize_direction_counterexample :
    ¬ ((normalizeBatch kZero imgRefBig imgRndSmall).1
          = resize kZero Interp.area imgRefBig imgRndSmall.H imgRndSmall.W ∧
        (normalizeBatch kZero imgRefBig imgRndSmall).2 = imgRndSmall) := by
  intro h
  have hn : normalizeBatch kZero imgRefBig imgRndSmall
      = (imgRefBig, resize kZero Interp.linear imgRndSmall imgRefBig.H imgRefBig.W) := by
    unfold normalizeBatch
    rw [if_pos (by decide)]
  rw [hn] at h
  exact absurd (congrArg Img.H h.2) (by decide)

/-- Claim C8 (corrected): in the interactive compare path
(`RCMETRICS_OT_Compare.execute`), whenever the two images differ in height
or width the reference is resized to the render's dimensions with
`cv2.INTER_AREA`, and afterwards both images have identical height and
width; in the batch path (`calculate_image_metrics`) the direction and the
kernel are reversed (render resized to the reference's size, default
bilinear). -/
theorem compare_normalize_area (k : Interp → Img → ℕ → ℕ → (ℕ → ℕ → ℕ → ℤ))
    (render orig : Img) (hd : (orig.H, orig.W) ≠ (render.H, render.W)) :
    normalizeCompare k render orig
        = (render, resize k Interp.area orig render.H render.W) ∧
    (normalizeCompare k render orig).1.H = (normalizeCompare k render orig).2.H ∧
    (normalizeCompare k render orig).1.W = (normalizeCompare k render orig).2.W := by
  have h : normalizeCompare k render orig
      = (render, resize k Interp.area orig render.H render.W) := by
    unfold normalizeCompare
    rw [if_pos hd]
  refine ⟨h, ?_, ?_⟩ <;> rw [h] <;> rfl

/-- Witness for C8's amended theorem: a 10×10 render against a 12×10
reference. -/
theorem compare_normalize_area_witness :
    normalizeCompare kZero imgRndSmall imgRefBig
        = (imgRndSmall, resize kZero Interp.area imgRefBig imgRndSmall.H imgRndSmall.W) ∧
    (normalizeCompare kZero imgRndSmall imgRefBig).1.H
        = (normalizeCompare kZero imgRndSmall imgRefBig).2.H ∧
    (normalizeCompare kZero imgRndSmall imgRefBig).1.W
        = (normalizeCompare kZero imgRndSmall imgRefBig).2.W :=
  compare_normalize_area kZero imgRndSmall imgRefBig (by decide)

/-! ## Claim C9 -/

lemma ite_lt_eq_min {a m : WithTop ℚ} : (if a < m then a else m) = min m a := by
  rcases lt_or_ge a m with h | h
  · rw [if_pos h, min_eq_right h.le]
  · rw [if_neg (not_lt.2 h), min_eq_left h]

lemma ite_gt_eq_max {a m : ℚ} : (if m < a then a else m) = max m a := by
  rcases lt_or_ge m a with h | h
  · rw [if_pos h, max_eq_right h.le]
  · rw [if_neg (not_lt.2 h), max_eq_left h]

lemma summarize_append (l : List (String × ℚ × ℚ)) (x : String × ℚ × ℚ) :
    summarize (l ++ [x]) = updateSummary (summarize l) x.1 x.2.1 x.2.2 := by
  unfold summarize
  rw [List.foldl_append]
  rfl

lemma summarize_cams (l : List (String × ℚ × ℚ)) : (summarize l).cams = l := by
  induction l using List.reverseRecOn with
  | nil => rfl
  | append_singleton l x ih =>
    rw [summarize_append]
    show (summarize l).cams ++ [(x.1, x.2.1, x.2.2)] = l ++ [x]
    rw [ih]

lemma summarize_minPsnr (l : List (String × ℚ × ℚ)) :
    (summarize l).minPsnr
      = l.foldl (fun m x => min m ((x.2.1 : ℚ) : WithTop ℚ)) ⊤ := by
  induction l using List.reverseRecOn with
  | nil => rfl
  | append_singleton l x ih =>
    rw [summarize_append, List.foldl_append]
    show (if ((x.2.1 : ℚ) : WithTop ℚ) < (summarize l).minPsnr
        then ((x.2.1 : ℚ) : WithTop ℚ) else (summarize l).minPsnr) = _
    rw [ih, ite_lt_eq_min]
    rfl

lemma summarize_minSsim (l : List (String × ℚ × ℚ)) :
    (summarize l).minSsim
      = l.foldl (fun m x => min m ((x.2.2 : ℚ) : WithTop ℚ)) ⊤ := by
  induction l using List.reverseRecOn with
  | nil => rfl
  | append_singleton l x ih =>
    rw [summarize_append, List.foldl_append]
    show (if ((x.2.2 : ℚ) : WithTop ℚ) < (summarize l).minSsim
        then ((x.2.2 : ℚ) : WithTop ℚ) else (summarize l).minSsim) = _
    rw [ih, ite_lt_eq_min]
    rfl

lemma summarize_maxPsnr (l : List (String × ℚ × ℚ)) :
    (summarize l).maxPsnr = l.foldl (fun m x => max m x.2.1) 0 := by
  induction l using List.reverseRecOn with
  | nil => rfl
  | append_singleton l x ih =>
    rw [summarize_append, List.foldl_append]
    show (if (summarize l).maxPsnr < x.2.1 then x.2.1 else (summarize l).maxPsnr) = _
    rw [ih, ite_gt_eq_max]
    rfl

lemma summarize_maxSsim (l : List (String × ℚ × ℚ)) :
    (summarize l).maxSsim = l.foldl (fun m x => max m x.2.2) 0 := by
  induction l using List.reverseRecOn with
  | nil => rfl
  | append_singleton l x ih =>
    rw [summarize_append, List.foldl_append]
    show (if (summarize l).maxSsim < x.2.2 then x.2.2 else (summarize l).maxSsim) = _
    rw [ih, ite_gt_eq_max]
    rfl

lemma summarize_avg (l : List (String × ℚ × ℚ)) :
    (summarize l).avgPsnr = (l.map (fun x => x.2.1)).sum / (l.length : ℚ) ∧
    (summarize l).avgSsim = (l.map (fun x => x.2.2)).sum / (l.length : ℚ) := by
  induction l using List.reverseRecOn with
  | nil => constructor <;> simp [summarize, initSummary]
  | append_singleton l x _ =>
    rw [summarize_append]
    constructor
    · show ((((summarize l).cams ++ [(x.1, x.2.1, x.2.2)]).map (fun y => y.2.1)).sum
          / ((((summarize l).cams ++ [(x.1, x.2.1, x.2.2)]).length : ℕ) : ℚ)) = _
      rw [summarize_cams]
    · show ((((summarize l).cams ++ [(x.1, x.2.1, x.2.2)]).map (fun y => y.2.2)).sum
          / ((((summarize l).cams ++ [(x.1, x.2.1, x.2.2)]).length : ℕ) : ℚ)) = _
      rw [summarize_cams]

/-- Claim C9 as stated is false: a batch consisting of one successfully
compared pair with SSIM -1/2 produces `max_ssim = 0` (the initial value
set in `invoke`), not the true maximum -1/2 of the per-pair SSIM
values. -/
theorem summary_max_ssim_counterexample :
    (summarize [("cam1", (10 : ℚ), -(1 : ℚ) / 2)]).maxSsim = 0 ∧
    (summarize [("cam1", (10 : ℚ), -(1 : ℚ) / 2)]).maxSsim ≠ -(1 : ℚ) / 2 := by
  have h : (summarize [("cam1", (10 : ℚ), -(1 : ℚ) / 2)]).maxSsim = 0 := by
    show (if (0 : ℚ) < -(1 : ℚ) / 2 then -(1 : ℚ) / 2 else 0) = 0
    rw [if_neg (by norm_num)]
  exact ⟨h, by rw [h]; norm_num⟩

/-- Claim C9 (corrected): after a batch over any list of successfully
compared (camera, psnr, ssim) triples, `average_psnr`/`average_ssim` are
the exact arithmetic means and `min_psnr`/`min_ssim` the exact minima
(starting from the `float('inf')` initial value), but `max_psnr`/`max_ssim`
are the maxima of the per-pair values AND the initial 0.0 — which equals
the true maximum whenever some value is nonnegative (always true for
PSNR, not always for SSIM). -/
theorem summary_aggregation (l : List (String × ℚ × ℚ)) :
    (summarize l).cams = l ∧
    (summarize l).avgPsnr = (l.map (fun x => x.2.1)).sum / (l.length : ℚ) ∧
    (summarize l).avgSsim = (l.map (fun x => x.2.2)).sum / (l.length : ℚ) ∧
    (summarize l).minPsnr
      = l.foldl (fun m x => min m ((x.2.1 : ℚ) : WithTop ℚ)) ⊤ ∧
    (summarize l).minSsim
      = l.foldl (fun m x => min m ((x.2.2 : ℚ) : WithTop ℚ)) ⊤ ∧
    (summarize l).maxPsnr = l.foldl (fun m x => max m x.2.1) 0 ∧
    (summarize l).maxSsim = l.foldl (fun m x => max m x.2.2) 0 :=
  ⟨summarize_cams l, (summarize_avg l).1, (summarize_avg l).2,
    summarize_minPsnr l, summarize_minSsim l,
    summarize_maxPsnr l, summarize_maxSsim l⟩

/-! ## Claim C10 -/

/-- Claim C10 (confirmed): in the batch metric path, whenever either
image's height or width is below 10 pixels, `calculate_image_metrics`
returns the failure value `(None, None)` without computing any metric. -/
theorem batch_min_dims_none (k : Interp → Img → ℕ → ℕ → (ℕ → ℕ → ℕ → ℤ))
    (covn : ℚ) (w : ℕ × ℕ → ℕ × ℕ → ℚ) (crop : Finset (ℕ × ℕ))
    (ref rnd : Img)
    (hd : ref.H < 10 ∨ ref.W < 10 ∨ rnd.H < 10 ∨ rnd.W < 10) :
    calcImageMetricsBatch k covn w crop ref rnd = (none, none) := by
  unfold calcImageMetricsBatch
  rcases Classical.em (ref.H * ref.W * ref.C = 0 ∨ rnd.H * rnd.W * rnd.C = 0) with h1 | h1
  · rw [if_pos h1]
  · rw [if_neg h1, if_pos hd]

/-- Witness for C10: a 5×5 reference against a 5×5 render. -/
theorem batch_min_dims_none_witness :
    calcImageMetricsBatch kZero 1 wZero ∅
      (Img.mk 5 5 3 (fun _ _ _ => 1)) (Img.mk 5 5 3 (fun _ _ _ => 2))
      = (none, none) :=
  batch_min_dims_none kZero 1 wZero ∅ _ _ (by decide)

end RCMetric
